import Mathlib

set_option maxRecDepth 8192

/-!
Verification of the streaming agent core (SSE frame decoder, content assembler,
turn runner, tool invocation step, orchestrator loop) of the
code-execution-with-mcp repository, shallowly embedded from
src/lib/agent.ts, src/unnamed/part_004 and src/lib/tools.ts.

Strings are modelled as lists of characters.  The embedding works at the
character level: the JavaScript TextDecoder reassembles UTF-8 code points that
are split across reads before the decode loop sees them, so chunk boundaries
are modelled at arbitrary character boundaries.  Whitespace is modelled by the
common ASCII whitespace characters (space, tab, line feed, carriage return),
which is the set shared by the JSON grammar and the inputs the stream carries.
JSON numbers are kept as their source lexemes; the claims under study never
depend on numeric value identity, only on equality of parse results of the
same text, so no floating-point semantics is needed.
-/

namespace AgentCore

/-! ### Basic character-list helpers -/

/-- JSON whitespace: the four characters the JSON grammar allows around and
inside documents (space, tab, line feed, carriage return). -/
def isWs (c : Char) : Bool :=
  c = ' ' || c = '\t' || c = '\n' || c = '\r'

def dropWs (s : List Char) : List Char := s.dropWhile isWs

/-- Remove trailing JSON whitespace. -/
def trimEnd (s : List Char) : List Char := (s.reverse.dropWhile isWs).reverse

/-- JavaScript String.prototype.trim whitespace: the ECMAScript WhiteSpace and
LineTerminator code points (tab, VT, FF, space, NBSP, BOM, the Zs category,
LF, CR, LS, PS) — a strict superset of JSON whitespace. -/
def isJsWs (c : Char) : Bool :=
  c = ' ' || c = '\t' || c = '\n' || c = '\r' || c = '\x0b' || c = '\x0c'
  || c.toNat = 0xA0 || c.toNat = 0x1680
  || (0x2000 ≤ c.toNat && c.toNat ≤ 0x200A)
  || c.toNat = 0x2028 || c.toNat = 0x2029 || c.toNat = 0x202F || c.toNat = 0x205F
  || c.toNat = 0x3000 || c.toNat = 0xFEFF

/-- Model of JavaScript String.prototype.trim: strip ECMAScript whitespace
from both ends.  Note this strips characters (such as U+000B) that the JSON
grammar does not treat as whitespace. -/
def jsTrim (s : List Char) : List Char :=
  ((s.dropWhile isJsWs).reverse.dropWhile isJsWs).reverse

/-- If the first list is a leading segment of the second, return the rest
(model of s.startsWith(p) combined with s.slice(p.length)). -/
def dropLead : List Char → List Char → Option (List Char)
  | [], s => some s
  | _ :: _, [] => none
  | p :: ps, c :: cs => if c = p then dropLead ps cs else none

/-- Concatenate a list of strings with no separator (model of arr.join("")). -/
def joinAll (l : List (List Char)) : List Char := l.foldr (· ++ ·) []

/-- First-match lookup in an association list (model of Map.get / array index read). -/
def lookupAssoc {α : Type} : List (List Char × α) → List Char → Option α
  | [], _ => none
  | (k', v) :: rest, k => if k' = k then some v else lookupAssoc rest k

/-- Replace the first binding of the key, or append one (model of Map.set /
array index write). -/
def setAssoc {α : Type} : List (List Char × α) → List Char → α → List (List Char × α)
  | [], k, v => [(k, v)]
  | (k', v') :: rest, k, v =>
    if k' = k then (k, v) :: rest else (k', v') :: setAssoc rest k v

/-- Remove the first binding of the key (model of Map.delete). -/
def removeAssoc {α : Type} : List (List Char × α) → List Char → List (List Char × α)
  | [], _ => []
  | (k', v') :: rest, k =>
    if k' = k then rest else (k', v') :: removeAssoc rest k

/-! ### JSON values -/

/-- JSON values as produced by JSON.parse.  Numbers keep their source lexeme. -/
inductive Json where
  | null
  | bool (b : Bool)
  | num (lexeme : List Char)
  | str (s : List Char)
  | arr (items : List Json)
  | obj (fields : List (List Char × Json))

/-- Field access on a decoded JSON value (model of payload?.field on a value
coming out of JSON.parse: only objects expose fields). -/
def getField : Json → List Char → Option Json
  | .obj fields, k => lookupAssoc fields k
  | _, _ => none

/-- A decoded JSON number denotes zero iff every digit of its mantissa is 0. -/
def numIsZero (lex : List Char) : Bool :=
  ((lex.takeWhile (fun c => c ≠ 'e' && c ≠ 'E')).filter (·.isDigit)).all (· = '0')

/-- JavaScript falsiness of a JSON-decoded value (model of the !x guards). -/
def jsFalsy : Json → Bool
  | .null => true
  | .bool b => !b
  | .num lex => numIsZero lex
  | .str s => s.isEmpty
  | .arr _ => false
  | .obj _ => false

/-! ### JavaScript String(x) coercion on JSON-decoded values -/

mutual

/-- Executable size measure on JSON values, used as recursion fuel. -/
def jsonSize : Json → Nat
  | .null => 1
  | .bool _ => 1
  | .num _ => 1
  | .str _ => 1
  | .arr items => jsonSizeList items + 1
  | .obj fields => jsonSizeFields fields + 1

def jsonSizeList : List Json → Nat
  | [] => 0
  | j :: js => jsonSize j + jsonSizeList js + 1

def jsonSizeFields : List (List Char × Json) → Nat
  | [] => 0
  | (_, j) :: fs => jsonSize j + jsonSizeFields fs + 1

end

/-- Join string renderings with commas (model of Array.prototype.join). -/
def sepJoin (sep : List Char) : List (List Char) → List Char
  | [] => []
  | [x] => x
  | x :: xs => x ++ sep ++ sepJoin sep xs

/-- Fuel-driven model of JavaScript String(x) applied to a JSON-decoded value.
Numbers render as their lexeme (canonical float printing is outside the model;
no claim depends on it). -/
def jsToStringF : Nat → Json → List Char
  | 0, _ => []
  | _ + 1, .null => "null".toList
  | _ + 1, .bool true => "true".toList
  | _ + 1, .bool false => "false".toList
  | _ + 1, .num lex => lex
  | _ + 1, .str s => s
  | fuel + 1, .arr items =>
    sepJoin [','] (items.map (fun j => match j with
      | .null => []
      | j' => jsToStringF fuel j'))
  | _ + 1, .obj _ => "[object Object]".toList

def jsToString (j : Json) : List Char := jsToStringF (jsonSize j + 1) j

/-! ### JSON parser (model of JSON.parse, fuel-driven recursive descent) -/

def hexVal (c : Char) : Option Nat :=
  if c.isDigit then some (c.toNat - 48)
  else if 'a' ≤ c && c ≤ 'f' then some (c.toNat - 87)
  else if 'A' ≤ c && c ≤ 'F' then some (c.toNat - 55)
  else none

/-- Parse the body of a JSON string after the opening quote, decoding escapes;
returns the decoded characters and the input after the closing quote. -/
def pStrBody : Nat → List Char → Option (List Char × List Char)
  | 0, _ => none
  | fuel + 1, s =>
    match s with
    | [] => none
    | '"' :: rest => some ([], rest)
    | '\\' :: e :: rest =>
      let cont := fun (c : Char) (r : List Char) =>
        match pStrBody fuel r with
        | some (cs, r') => some (c :: cs, r')
        | none => none
      match e with
      | '"' => cont '"' rest
      | '\\' => cont '\\' rest
      | '/' => cont '/' rest
      | 'b' => cont '\x08' rest
      | 'f' => cont '\x0c' rest
      | 'n' => cont '\n' rest
      | 'r' => cont '\r' rest
      | 't' => cont '\t' rest
      | 'u' =>
        match rest with
        | h1 :: h2 :: h3 :: h4 :: rest' =>
          match hexVal h1, hexVal h2, hexVal h3, hexVal h4 with
          | some a, some b, some c, some d =>
            cont (Char.ofNat (((a * 16 + b) * 16 + c) * 16 + d)) rest'
          | _, _, _, _ => none
        | _ => none
      | _ => none
    | c :: rest =>
      if c.toNat < 32 then none
      else
        match pStrBody fuel rest with
        | some (cs, r') => some (c :: cs, r')
        | none => none

/-- Integer part of a JSON number: 0, or a nonzero digit followed by digits. -/
def pInt : List Char → Option (List Char × List Char)
  | '0' :: rest => some (['0'], rest)
  | c :: rest =>
    if c.isDigit then
      some (c :: rest.takeWhile (·.isDigit), rest.dropWhile (·.isDigit))
    else none
  | [] => none

/-- Optional fraction part:  . digit+  (empty lexeme if absent). -/
def pFrac : List Char → Option (List Char × List Char)
  | '.' :: rest =>
    match rest.takeWhile (·.isDigit) with
    | [] => none
    | ds => some ('.' :: ds, rest.dropWhile (·.isDigit))
  | s => some ([], s)

/-- Optional exponent part:  (e|E) (+|-)? digit+  (empty lexeme if absent). -/
def pExp (s : List Char) : Option (List Char × List Char) :=
  match s with
  | c :: rest =>
    if c = 'e' || c = 'E' then
      let signAndRest : List Char × List Char :=
        match rest with
        | '+' :: r => (['+'], r)
        | '-' :: r => (['-'], r)
        | r => ([], r)
      match signAndRest.2.takeWhile (·.isDigit) with
      | [] => none
      | ds => some (c :: signAndRest.1 ++ ds, signAndRest.2.dropWhile (·.isDigit))
    else some ([], s)
  | [] => some ([], s)

/-- JSON number: -? int frac? exp?; returns the lexeme and the rest. -/
def pNumber (s : List Char) : Option (List Char × List Char) :=
  let signAndRest : List Char × List Char :=
    match s with
    | '-' :: r => (['-'], r)
    | _ => ([], s)
  match pInt signAndRest.2 with
  | none => none
  | some (i, s2) =>
    match pFrac s2 with
    | none => none
    | some (f, s3) =>
      match pExp s3 with
      | none => none
      | some (e, s4) => some (signAndRest.1 ++ i ++ f ++ e, s4)

mutual

/-- Parse one JSON value (input starts at a non-whitespace character). -/
def pValue : Nat → List Char → Option (Json × List Char)
  | 0, _ => none
  | fuel + 1, s =>
    match s with
    | [] => none
    | c :: rest =>
      if c = 'n' then
        match dropLead ("ull".toList) rest with
        | some r => some (.null, r)
        | none => none
      else if c = 't' then
        match dropLead ("rue".toList) rest with
        | some r => some (.bool true, r)
        | none => none
      else if c = 'f' then
        match dropLead ("alse".toList) rest with
        | some r => some (.bool false, r)
        | none => none
      else if c = '"' then
        match pStrBody (rest.length + 1) rest with
        | some (cs, r) => some (.str cs, r)
        | none => none
      else if c = '[' then
        match dropWs rest with
        | ']' :: r => some (.arr [], r)
        | r =>
          match pElements fuel r with
          | some (items, r') => some (.arr items, r')
          | none => none
      else if c = '{' then
        match dropWs rest with
        | '}' :: r => some (.obj [], r)
        | r =>
          match pMembers fuel r with
          | some (fields, r') => some (.obj fields, r')
          | none => none
      else if c = '-' || c.isDigit then
        match pNumber (c :: rest) with
        | some (lex, r) => some (.num lex, r)
        | none => none
      else none

/-- Parse array elements up to and including the closing bracket. -/
def pElements : Nat → List Char → Option (List Json × List Char)
  | 0, _ => none
  | fuel + 1, s =>
    match pValue fuel s with
    | none => none
    | some (v, r) =>
      match dropWs r with
      | ',' :: r2 =>
        match pElements fuel (dropWs r2) with
        | some (vs, r3) => some (v :: vs, r3)
        | none => none
      | ']' :: r2 => some ([v], r2)
      | _ => none

/-- Parse object members up to and including the closing brace. -/
def pMembers : Nat → List Char → Option (List (List Char × Json) × List Char)
  | 0, _ => none
  | fuel + 1, s =>
    match s with
    | '"' :: rest =>
      match pStrBody (rest.length + 1) rest with
      | none => none
      | some (key, r) =>
        match dropWs r with
        | ':' :: r2 =>
          match pValue fuel (dropWs r2) with
          | none => none
          | some (v, r3) =>
            match dropWs r3 with
            | ',' :: r4 =>
              match pMembers fuel (dropWs r4) with
              | some (fs, r5) => some ((key, v) :: fs, r5)
              | none => none
            | '}' :: r4 => some ([(key, v)], r4)
            | _ => none
        | _ => none
    | _ => none

end

/-- Parse a whole JSON document given with no surrounding whitespace. -/
def jsonCore (s : List Char) : Option Json :=
  match pValue (2 * s.length + 4) s with
  | some (v, rest) => if dropWs rest = [] then some v else none
  | none => none

/-- Surrounding JSON whitespace stripped from both ends. -/
def jsonTrim (s : List Char) : List Char := trimEnd (dropWs s)

/-- Model of JSON.parse: surrounding JSON whitespace is ignored, then the
whole input must be one JSON value.  JSON whitespace is strictly narrower
than what String.prototype.trim strips (for example U+000B makes a document
invalid). -/
def jsonParse (s : List Char) : Option Json := jsonCore (jsonTrim s)

/-! ### JSON.stringify(x, null, 2) -/

def hexDigit (n : Nat) : Char :=
  if n < 10 then Char.ofNat (48 + n) else Char.ofNat (87 + n)

def escapeChar (c : Char) : List Char :=
  if c = '"' then ['\\', '"']
  else if c = '\\' then ['\\', '\\']
  else if c = '\n' then ['\\', 'n']
  else if c = '\r' then ['\\', 'r']
  else if c = '\t' then ['\\', 't']
  else if c = '\x08' then ['\\', 'b']
  else if c = '\x0c' then ['\\', 'f']
  else if c.toNat < 32 then ['\\', 'u', '0', '0', hexDigit (c.toNat / 16), hexDigit (c.toNat % 16)]
  else [c]

def quoteStr (s : List Char) : List Char :=
  '"' :: s.foldr (fun c acc => escapeChar c ++ acc) ['"']

def nlIndent (n : Nat) : List Char := '\n' :: List.replicate n ' '

/-- Fuel-driven model of JSON.stringify with two-space indentation. -/
def stringifyF : Nat → Nat → Json → List Char
  | 0, _, _ => []
  | _ + 1, _, .null => "null".toList
  | _ + 1, _, .bool true => "true".toList
  | _ + 1, _, .bool false => "false".toList
  | _ + 1, _, .num lex => lex
  | _ + 1, _, .str s => quoteStr s
  | fuel + 1, ind, .arr items =>
    match items with
    | [] => ['[', ']']
    | _ =>
      '[' :: sepJoin [','] (items.map (fun j => nlIndent (ind + 2) ++ stringifyF fuel (ind + 2) j))
        ++ nlIndent ind ++ [']']
  | fuel + 1, ind, .obj fields =>
    match fields with
    | [] => ['{', '}']
    | _ =>
      '{' :: sepJoin [','] (fields.map (fun kv =>
          nlIndent (ind + 2) ++ quoteStr kv.1 ++ ':' :: ' ' :: stringifyF fuel (ind + 2) kv.2))
        ++ nlIndent ind ++ ['}']

def jsonStringify2 (j : Json) : List Char := stringifyF (jsonSize j + 1) 0 j

example : jsonParse ("\x7b\"a\": 1\x7d".toList) = some (.obj [("a".toList, .num ['1'])]) := rfl

example : jsonParse ("  [true, null, \"x\\n\"] ".toList)
    = some (.arr [.bool true, .null, .str ['x', '\n']]) := rfl

example : jsonParse ("\x7b\"a\":1".toList) = none := rfl

example : jsonParse ("".toList) = none := rfl

example : jsonParse ("01".toList) = none := rfl

example : jsonParse ("-1.5e+2".toList) = some (.num ("-1.5e+2".toList)) := rfl

example (s : List Char) : jsToString (.str s) = s := rfl

/-! ### SSE frame decoder (parseEvent and the incremental buffer loop)

Embedded from parseEvent and the processBuffer / read loop of
streamClaudeTurn (src/lib/agent.ts lines 76-108 and 168-308; identical in
src/unnamed/part_004). -/

/-- The data payload of a decoded frame: the literal [DONE] sentinel or a
decoded JSON value. -/
inductive ParsedData where
  | doneMark
  | json (j : Json)

/-- A decoded wire event: event name plus optional payload. -/
structure AnthropicEvent where
  event : List Char
  data : Option ParsedData

/-- raw.split("\n"). -/
def splitLines (raw : List Char) : List (List Char) := raw.splitOn '\n'

/-- The literal prefix "event:". -/
def eventMark : List Char := "event:".toList

/-- The literal prefix "data:". -/
def dataMark : List Char := "data:".toList

/-- The line-scanning loop of parseEvent: skip blank lines, record the last
event: line (stripped and trimmed), collect the data: lines (stripped and
trimmed) in order. -/
def collectLines : List (List Char) → List Char → List (List Char) → List Char × List (List Char)
  | [], ev, ds => (ev, ds)
  | l :: ls, ev, ds =>
    if jsTrim l = [] then collectLines ls ev ds
    else
      match dropLead eventMark l with
      | some rest => collectLines ls (jsTrim rest) ds
      | none =>
        match dropLead dataMark l with
        | some rest => collectLines ls ev (ds ++ [jsTrim rest])
        | none => collectLines ls ev ds

/-- The event name accumulated by parseEvent for a raw frame. -/
def eventNameOf (raw : List Char) : List Char :=
  (collectLines (splitLines raw) [] []).1

/-- The data payload text accumulated by parseEvent for a raw frame
(dataLines.join("")). -/
def dataPayloadOf (raw : List Char) : List Char :=
  joinAll (collectLines (splitLines raw) [] []).2

/-- Model of parseEvent: returns none for a frame with no event name and no
data lines, and for a frame whose payload fails to parse as JSON. -/
def parseEvent (raw : List Char) : Option AnthropicEvent :=
  let ev := eventNameOf raw
  let dataPayload := dataPayloadOf raw
  if ev = [] ∧ (collectLines (splitLines raw) [] []).2 = [] then none
  else if dataPayload = [] then some ⟨ev, none⟩
  else if dataPayload = "[DONE]".toList then some ⟨ev, some .doneMark⟩
  else
    match jsonParse dataPayload with
    | some j => some ⟨ev, some (.json j)⟩
    | none => none

/-- Find the first blank-line boundary (buffer.indexOf("\n\n")): returns the
frame before the boundary and the buffer after it. -/
def splitFrame : List Char → Option (List Char × List Char)
  | [] => none
  | c :: rest =>
    if c = '\n' ∧ rest.head? = some '\n' then some ([], rest.tail)
    else
      match splitFrame rest with
      | some (f, r) => some (c :: f, r)
      | none => none

lemma splitFrame_len : ∀ (s f r : List Char), splitFrame s = some (f, r) → r.length < s.length := by
  intro s
  induction s with
  | nil => intro f r h; simp [splitFrame] at h
  | cons c rest ih =>
    intro f r h
    simp only [splitFrame] at h
    split at h
    · rename_i hcond
      obtain ⟨rf, rr⟩ := Prod.mk.injEq .. ▸ (Option.some.injEq .. ▸ h)
      subst rr
      have : rest.tail.length ≤ rest.length := by
        cases rest <;> simp
      simp only [List.length_cons]
      omega
    · split at h
      · rename_i f0 r0 hrec
        obtain ⟨rf, rr⟩ := Prod.mk.injEq .. ▸ (Option.some.injEq .. ▸ h)
        subst rr
        have := ih f0 r0 hrec
        simp only [List.length_cons]
        omega
      · exact absurd h (by simp)

/-- Appending more input does not change an already-found frame boundary. -/
lemma splitFrame_append {s f r : List Char} (t : List Char)
    (h : splitFrame s = some (f, r)) : splitFrame (s ++ t) = some (f, r ++ t) := by
  induction s generalizing f r with
  | nil => simp [splitFrame] at h
  | cons c rest ih =>
    simp only [splitFrame] at h
    rw [List.cons_append]
    simp only [splitFrame]
    split at h
    · rename_i hcond
      obtain ⟨hc, hh⟩ := hcond
      have hne : rest ≠ [] := by
        intro hr; rw [hr] at hh; simp at hh
      obtain ⟨rf, rr⟩ := Prod.mk.injEq .. ▸ (Option.some.injEq .. ▸ h)
      subst rf rr
      rw [if_pos]
      · cases rest with
        | nil => exact absurd rfl hne
        | cons x xs => simp
      · constructor
        · exact hc
        · cases rest with
          | nil => exact absurd rfl hne
          | cons x xs => simpa using hh
    · rename_i hcond
      split at h
      · rename_i f0 r0 hrec
        obtain ⟨rf, rr⟩ := Prod.mk.injEq .. ▸ (Option.some.injEq .. ▸ h)
        subst rf rr
        have hne : rest ≠ [] := by
          intro hr
          rw [hr] at hrec; simp [splitFrame] at hrec
        rw [if_neg]
        · rw [ih hrec]
        · intro hcontra
          obtain ⟨hc, hh⟩ := hcontra
          refine hcond ⟨hc, ?_⟩
          cases rest with
          | nil => exact absurd rfl hne
          | cons x xs => simpa using hh
      · exact absurd h (by simp)

/-- The while loop of processBuffer: repeatedly extract complete
blank-line-terminated frames; the unterminated tail stays in the buffer. -/
def extractFrames (buf : List Char) : List (List Char) × List Char :=
  match h : splitFrame buf with
  | none => ([], buf)
  | some (f, r) => (f :: (extractFrames r).1, (extractFrames r).2)
termination_by buf.length
decreasing_by exact splitFrame_len buf f r h

lemma extractFrames_of_none {b : List Char} (h : splitFrame b = none) :
    extractFrames b = ([], b) := by
  rw [extractFrames, h]

lemma extractFrames_of_some {b f r : List Char} (h : splitFrame b = some (f, r)) :
    extractFrames b = (f :: (extractFrames r).1, (extractFrames r).2) := by
  rw [extractFrames, h]

/-- The buffer left by frame extraction never contains a complete frame. -/
lemma splitFrame_extract (b : List Char) : splitFrame (extractFrames b).2 = none := by
  suffices hgen : ∀ (n : Nat) (b : List Char), b.length = n →
      splitFrame (extractFrames b).2 = none from hgen b.length b rfl
  intro n
  induction n using Nat.strong_induction_on with
  | _ n ih =>
    intro b hn
    cases h : splitFrame b with
    | none => rw [extractFrames_of_none h]; exact h
    | some fr =>
      obtain ⟨f, r⟩ := fr
      rw [extractFrames_of_some h]
      exact ih r.length (hn ▸ splitFrame_len b f r h) r rfl

/-- Incremental extraction composes: extracting from b ++ t first yields the
frames of b, then continues on the leftover of b extended by t. -/
lemma extractFrames_append (b t : List Char) :
    extractFrames (b ++ t)
      = ((extractFrames b).1 ++ (extractFrames ((extractFrames b).2 ++ t)).1,
         (extractFrames ((extractFrames b).2 ++ t)).2) := by
  suffices hgen : ∀ (n : Nat) (b : List Char), b.length = n →
      extractFrames (b ++ t)
        = ((extractFrames b).1 ++ (extractFrames ((extractFrames b).2 ++ t)).1,
           (extractFrames ((extractFrames b).2 ++ t)).2) from hgen b.length b rfl
  intro n
  induction n using Nat.strong_induction_on with
  | _ n ih =>
    intro b hn
    cases h : splitFrame b with
    | none => rw [extractFrames_of_none h]; simp
    | some fr =>
      obtain ⟨f, r⟩ := fr
      rw [extractFrames_of_some h, extractFrames_of_some (splitFrame_append t h)]
      rw [ih r.length (hn ▸ splitFrame_len b f r h) r rfl]
      simp

/-- The incremental decode loop of streamClaudeTurn: append each arriving
chunk to the buffer, then extract every complete frame. -/
def feedChunks : List Char → List (List Char) → List (List Char) × List Char
  | buf, [] => ([], buf)
  | buf, c :: cs =>
    ((extractFrames (buf ++ c)).1 ++ (feedChunks (extractFrames (buf ++ c)).2 cs).1,
     (feedChunks (extractFrames (buf ++ c)).2 cs).2)

lemma feedChunks_spec : ∀ (cs : List (List Char)) (buf : List Char),
    splitFrame buf = none →
    feedChunks buf cs = extractFrames (buf ++ joinAll cs) := by
  intro cs
  induction cs with
  | nil =>
    intro buf hbuf
    simp only [feedChunks, joinAll, List.foldr_nil, List.append_nil]
    rw [extractFrames_of_none hbuf]
  | cons c cs ih =>
    intro buf hbuf
    have hjoin : joinAll (c :: cs) = c ++ joinAll cs := rfl
    rw [hjoin, feedChunks, ih _ (splitFrame_extract (buf ++ c)),
      ← List.append_assoc, extractFrames_append (buf ++ c) (joinAll cs)]

/-! ### Content assembler (the event switch of streamClaudeTurn)

Embedded from src/lib/agent.ts lines 193-288 (same in src/unnamed/part_004).
The assistant message content array and the pendingToolInputs map are both
keyed by the index number carried in the wire event; the key is modelled by
the number's lexeme.  crypto.randomUUID is modelled by a counter held in the
state (no claim depends on the generated identifier). -/

inductive MessageContent where
  | text (t : List Char)
  | toolUse (id name : List Char) (input : Json)
  | toolResult (toolUseId content : List Char)

structure PendingInput where
  id : List Char
  name : List Char
  buffer : List Char

structure ToolCall where
  id : List Char
  name : List Char
  input : Json
  index : List Char

structure TurnState where
  content : List (List Char × MessageContent)
  toolCalls : List ToolCall
  pending : List (List Char × PendingInput)
  uuidCtr : Nat

/-- Events surfaced to the caller while a turn is streaming. -/
inductive TurnEmit where
  | assistantDelta (t : List Char)
  | toolRequest (id name : List Char)

def initState : TurnState := ⟨[], [], [], 0⟩

/-- The JSON payload of a decoded wire event, when it has one. -/
def payloadOf : Option ParsedData → Option Json
  | some (.json j) => some j
  | _ => none

/-- payload?.index with the typeof number guard: only a JSON number passes. -/
def getIndex (payload : Option Json) : Option (List Char) :=
  match payload with
  | some j =>
    match getField j ("index".toList) with
    | some (.num lex) => some lex
    | _ => none
  | none => none

/-- String(x ?? ""): null or absent coerces to the empty string. -/
def strOrEmpty : Option Json → List Char
  | none => []
  | some .null => []
  | some j => jsToString j

def freshUuid (n : Nat) : List Char := "uuid-".toList ++ Nat.toDigits 10 n

/-- String(x ?? crypto.randomUUID()): null or absent draws a fresh id. -/
def idOrUuid : Option Json → Nat → List Char × Nat
  | none, ctr => (freshUuid ctr, ctr + 1)
  | some .null, ctr => (freshUuid ctr, ctr + 1)
  | some j, ctr => (jsToString j, ctr)

/-- case content_block_start. -/
def handleBlockStart (st : TurnState) (payload : Option Json) : TurnState × List TurnEmit :=
  match getIndex payload with
  | none => (st, [])
  | some ix =>
    match payload.bind (fun j => getField j ("content_block".toList)) with
    | none => (st, [])
    | some content =>
      if jsFalsy content then (st, [])
      else
        match getField content ("type".toList) with
        | some (.str ty) =>
          if ty = "text".toList then
            ({ st with content := setAssoc st.content ix (.text []) }, [])
          else if ty = "tool_use".toList then
            let idCtr := idOrUuid (getField content ("id".toList)) st.uuidCtr
            let name := strOrEmpty (getField content ("name".toList))
            ({ st with
                content := setAssoc st.content ix (.toolUse idCtr.1 name (Json.obj [])),
                pending := setAssoc st.pending ix ⟨idCtr.1, name, []⟩,
                uuidCtr := idCtr.2 },
             [.toolRequest idCtr.1 name])
          else (st, [])
        | _ => (st, [])

/-- case content_block_delta. -/
def handleBlockDelta (st : TurnState) (payload : Option Json) : TurnState × List TurnEmit :=
  match getIndex payload with
  | none => (st, [])
  | some ix =>
    match payload.bind (fun j => getField j ("delta".toList)) with
    | none => (st, [])
    | some delta =>
      if jsFalsy delta then (st, [])
      else
        match getField delta ("type".toList) with
        | some (.str ty) =>
          if ty = "text_delta".toList then
            let t := strOrEmpty (getField delta ("text".toList))
            let content' :=
              match lookupAssoc st.content ix with
              | some (.text s) => setAssoc st.content ix (.text (s ++ t))
              | _ => st.content
            ({ st with content := content' },
             if t = [] then [] else [.assistantDelta t])
          else if ty = "input_json_delta".toList then
            let frag := strOrEmpty (getField delta ("partial_json".toList))
            let pending' :=
              match lookupAssoc st.pending ix with
              | some p => setAssoc st.pending ix ⟨p.id, p.name, p.buffer ++ frag⟩
              | none => st.pending
            ({ st with pending := pending' }, [])
          else (st, [])
        | _ => (st, [])

/-- The accumulated raw tool-input buffer parsed at content_block_stop:
trim, parse nonempty text as JSON, fall back to an empty object. -/
def parsedInputOf (buf : List Char) : Json :=
  let inputBuffer := jsTrim buf
  if inputBuffer = [] then Json.obj []
  else
    match jsonParse inputBuffer with
    | some v => v
    | none => Json.obj []

/-- case content_block_stop. -/
def handleBlockStop (st : TurnState) (payload : Option Json) : TurnState × List TurnEmit :=
  match getIndex payload with
  | none => (st, [])
  | some ix =>
    match lookupAssoc st.pending ix with
    | none => (st, [])
    | some p =>
      let pending' := removeAssoc st.pending ix
      let input := parsedInputOf p.buffer
      match lookupAssoc st.content ix with
      | some (.toolUse id name _) =>
        ({ st with
            pending := pending',
            content := setAssoc st.content ix (.toolUse id name input),
            toolCalls := st.toolCalls ++ [⟨id, name, input, ix⟩] }, [])
      | _ => ({ st with pending := pending' }, [])

/-- One step of the event switch.  The Bool is true when the turn ended
(message_stop or the [DONE] sentinel); an error wire event raises. -/
def handleEvent (st : TurnState) (e : AnthropicEvent) :
    Except (List Char) (TurnState × List TurnEmit × Bool) :=
  match e.data with
  | some .doneMark => .ok (st, [], true)
  | _ =>
    let payload := payloadOf e.data
    if e.event = "content_block_start".toList then
      let r := handleBlockStart st payload
      .ok (r.1, r.2, false)
    else if e.event = "content_block_delta".toList then
      let r := handleBlockDelta st payload
      .ok (r.1, r.2, false)
    else if e.event = "content_block_stop".toList then
      let r := handleBlockStop st payload
      .ok (r.1, r.2, false)
    else if e.event = "message_stop".toList then
      .ok (st, [], true)
    else if e.event = "error".toList then
      .error ("Claude streaming error".toList)
    else
      .ok (st, [], false)

/-- Fold the event switch over a list of decoded wire events, stopping at the
first terminal event and propagating a streaming error. -/
def processEvents (st : TurnState) : List AnthropicEvent → Except (List Char) (TurnState × List TurnEmit)
  | [] => .ok (st, [])
  | e :: es =>
    match handleEvent st e with
    | .error m => .error m
    | .ok (st', ems, ended) =>
      if ended then .ok (st', ems)
      else
        match processEvents st' es with
        | .error m => .error m
        | .ok (st'', ems') => .ok (st'', ems ++ ems')

/-- A whole turn over already-extracted raw frames: decode each frame and run
the assembler. -/
def runFrames (frames : List (List Char)) : Except (List Char) (TurnState × List TurnEmit) :=
  processEvents initState (frames.filterMap parseEvent)

/-! Wire-event constructors used to state the claims. -/

def mkTextStart (ix : List Char) : AnthropicEvent :=
  ⟨"content_block_start".toList,
   some (.json (.obj [("index".toList, .num ix),
                      ("content_block".toList,
                       .obj [("type".toList, .str ("text".toList))])]))⟩

def mkToolStart (ix id name : List Char) : AnthropicEvent :=
  ⟨"content_block_start".toList,
   some (.json (.obj [("index".toList, .num ix),
                      ("content_block".toList,
                       .obj [("type".toList, .str ("tool_use".toList)),
                             ("id".toList, .str id),
                             ("name".toList, .str name)])]))⟩

def mkTextDelta (ix t : List Char) : AnthropicEvent :=
  ⟨"content_block_delta".toList,
   some (.json (.obj [("index".toList, .num ix),
                      ("delta".toList,
                       .obj [("type".toList, .str ("text_delta".toList)),
                             ("text".toList, .str t)])]))⟩

def mkInputDelta (ix frag : List Char) : AnthropicEvent :=
  ⟨"content_block_delta".toList,
   some (.json (.obj [("index".toList, .num ix),
                      ("delta".toList,
                       .obj [("type".toList, .str ("input_json_delta".toList)),
                             ("partial_json".toList, .str frag)])]))⟩

def mkBlockStop (ix : List Char) : AnthropicEvent :=
  ⟨"content_block_stop".toList,
   some (.json (.obj [("index".toList, .num ix)]))⟩

lemma handleEvent_mkTextDelta (st : TurnState) (ix t : List Char) :
    handleEvent st (mkTextDelta ix t) =
      .ok ({ st with content :=
               match lookupAssoc st.content ix with
               | some (.text s) => setAssoc st.content ix (.text (s ++ t))
               | _ => st.content },
           (if t = [] then [] else [.assistantDelta t]), false) := rfl

lemma handleEvent_mkInputDelta (st : TurnState) (ix frag : List Char) :
    handleEvent st (mkInputDelta ix frag) =
      .ok ({ st with pending :=
               match lookupAssoc st.pending ix with
               | some p => setAssoc st.pending ix ⟨p.id, p.name, p.buffer ++ frag⟩
               | none => st.pending },
           [], false) := rfl

lemma handleEvent_mkBlockStop (st : TurnState) (ix : List Char) :
    handleEvent st (mkBlockStop ix) =
      .ok ((handleBlockStop st (some (.obj [("index".toList, .num ix)]))).1,
           (handleBlockStop st (some (.obj [("index".toList, .num ix)]))).2, false) := rfl

lemma handleBlockStop_getIndex (st : TurnState) (ix : List Char) :
    handleBlockStop st (some (.obj [("index".toList, .num ix)])) =
      match lookupAssoc st.pending ix with
      | none => (st, [])
      | some p =>
        match lookupAssoc st.content ix with
        | some (.toolUse id name _) =>
          ({ st with
              pending := removeAssoc st.pending ix,
              content := setAssoc st.content ix (.toolUse id name (parsedInputOf p.buffer)),
              toolCalls := st.toolCalls ++ [⟨id, name, parsedInputOf p.buffer, ix⟩] }, [])
        | _ => ({ st with pending := removeAssoc st.pending ix }, []) := rfl

/-! ### Tool invocation (src/lib/tools.ts)

The concrete tool implementations (sandboxed VM runner, knowledge base,
todo list) are external collaborators of the core; they are supplied as
parameters.  The dispatch switch of runTool, including the inline input
guard of the run_javascript case and the unknown-tool default, is embedded
from the source. -/

structure ExecutionTrace where
  title : List Char
  detail : List Char

inductive ToolRunResponse where
  | success (result : Json) (logs : List (List Char)) (trace : List ExecutionTrace)
  | failure (message : List Char) (trace : List ExecutionTrace)

def isOk : ToolRunResponse → Bool
  | .success .. => true
  | .failure .. => false

/-- The external tool capabilities consumed by runTool. -/
structure ToolImpls where
  runJavaScriptImpl : List Char → ToolRunResponse
  listCapabilitiesImpl : ToolRunResponse
  explainGuardrailsImpl : ToolRunResponse
  kbLookupImpl : Json → ToolRunResponse
  todoManagerImpl : Json → ToolRunResponse

/-- Names of the tools registered in the tools array of src/lib/tools.ts. -/
def toolNames : List (List Char) :=
  ["run_javascript".toList, "list_capabilities".toList, "explain_guardrails".toList,
   "kb_lookup".toList, "todo_manager".toList]

/-- The switch of runTool (src/lib/tools.ts lines 230-271). -/
def runTool (impls : ToolImpls) (toolName : List Char) (input : Json) : ToolRunResponse :=
  if toolName = "run_javascript".toList then
    match getField input ("code".toList) with
    | some (.str code) => impls.runJavaScriptImpl code
    | _ =>
      .failure ("Expected `code` to be a string.".toList)
        [⟨"Validate input".toList,
          "Guard clause triggered because code was missing or not a string.".toList⟩]
  else if toolName = "list_capabilities".toList then impls.listCapabilitiesImpl
  else if toolName = "explain_guardrails".toList then impls.explainGuardrailsImpl
  else if toolName = "kb_lookup".toList then impls.kbLookupImpl input
  else if toolName = "todo_manager".toList then impls.todoManagerImpl input
  else
    .failure ("Unknown tool: ".toList ++ toolName)
      [⟨"Lookup tool".toList,
        "The orchestrator asked for a tool that is not registered in this host.".toList⟩]

/-- renderToolResult (src/unnamed/part_004 lines 119-142): serialize the
structured result with JSON.stringify(x, null, 2). -/
def renderToolResult : ToolRunResponse → List Char
  | .success res logs trace =>
    jsonStringify2 (.obj [("ok".toList, .bool true),
                          ("result".toList, res),
                          ("logs".toList, .arr (logs.map .str)),
                          ("trace".toList, .arr (trace.map fun tr =>
                            .obj [("title".toList, .str tr.title),
                                  ("detail".toList, .str tr.detail)]))])
  | .failure msg trace =>
    jsonStringify2 (.obj [("ok".toList, .bool false),
                          ("message".toList, .str msg),
                          ("trace".toList, .arr (trace.map fun tr =>
                            .obj [("title".toList, .str tr.title),
                                  ("detail".toList, .str tr.detail)]))])

/-! ### Orchestrator loop (createAgentResponse, src/unnamed/part_004 lines 318-422)

One turn of streamClaudeTurn is a network interaction; the successive turn
results of the model endpoint are supplied to the model as a script, one
entry consumed per loop iteration.  The exit marker outOfScript describes a
run whose script was exhausted while tool calls were still pending (the real
loop would issue a further model request there); claims about a terminating
exchange assume the script settles it, i.e. the exit is not outOfScript. -/

inductive Role where
  | user
  | assistant
  | tool

structure AgentMessage where
  role : Role
  content : List MessageContent

structure AgentSession where
  id : List Char
  messages : List AgentMessage

/-- The normalized outbound event protocol (AgentStreamEvent). -/
inductive OutboundEvent where
  | message (m : AgentMessage)
  | assistantDelta (t : List Char)
  | toolRequest (id name : List Char)
  | toolCall (id name : List Char) (input : Json)
  | toolResult (id : List Char) (ok : Bool) (payload : ToolRunResponse)
  | sessionEvent (id : List Char) (messages : List AgentMessage)
  | errorEvent (message : List Char)
  | doneEvent

/-- Result of one streamClaudeTurn call: the finished assistant message and
the finalized tool calls, or the error it raised. -/
inductive TurnOutcome where
  | success (assistantMessage : AgentMessage) (toolCalls : List ToolCall)
  | failure (message : List Char)

inductive LoopExit where
  | completed
  | failed (message : List Char)
  | outOfScript
deriving DecidableEq

def isDoneEv : OutboundEvent → Bool
  | .doneEvent => true
  | _ => false

def isErrorEv : OutboundEvent → Bool
  | .errorEvent _ => true
  | _ => false

def isSessionEv : OutboundEvent → Bool
  | .sessionEvent .. => true
  | _ => false

/-- The tool message built for one tool call (role tool, one tool_result block). -/
def toolMessageOf (impls : ToolImpls) (call : ToolCall) : AgentMessage :=
  ⟨.tool, [.toolResult call.id (renderToolResult (runTool impls call.name call.input))]⟩

/-- The outbound events of one tool invocation step. -/
def toolStepEvents (impls : ToolImpls) (call : ToolCall) : List OutboundEvent :=
  [.toolCall call.id call.name call.input,
   .toolResult call.id (isOk (runTool impls call.name call.input))
     (runTool impls call.name call.input),
   .message (toolMessageOf impls call)]

/-- The for-of loop over toolCalls: emit tool-call, run the tool, emit
tool-result, append the tool message, emit it. -/
def runCalls (impls : ToolImpls) : List ToolCall → List AgentMessage →
    List OutboundEvent × List AgentMessage
  | [], conv => ([], conv)
  | call :: calls, conv =>
    let result := runTool impls call.name call.input
    let toolMessage : AgentMessage :=
      ⟨.tool, [.toolResult call.id (renderToolResult result)]⟩
    let rest := runCalls impls calls (conv ++ [toolMessage])
    (.toolCall call.id call.name call.input
       :: .toolResult call.id (isOk result) result
       :: .message toolMessage
       :: rest.1,
     rest.2)

/-- The while(true) loop of createAgentResponse: run a turn, append and emit
the assistant message, stop if it has no tool calls, otherwise run every
tool call and loop. -/
def runLoop (impls : ToolImpls) : List TurnOutcome → List AgentMessage →
    List OutboundEvent × List AgentMessage × LoopExit
  | [], conv => ([], conv, .outOfScript)
  | .failure m :: _, conv => ([], conv, .failed m)
  | .success am calls :: rest, conv =>
    if calls.isEmpty then ([.message am], conv ++ [am], .completed)
    else
      let tc := runCalls impls calls (conv ++ [am])
      let lr := runLoop impls rest tc.2
      (.message am :: tc.1 ++ lr.1, lr.2.1, lr.2.2)

structure ExchangeResult where
  events : List OutboundEvent
  conv : List AgentMessage
  sessionId : List Char
  exit : LoopExit

/-- createAgentResponse: resolve the session id, append the user message,
run the loop, and close with session + done on success or a single error
event on failure. -/
def createAgentResponse (impls : ToolImpls) (prompt : List Char)
    (session : Option AgentSession) (freshId : List Char)
    (script : List TurnOutcome) : ExchangeResult :=
  let sessionId := match session with | some s => s.id | none => freshId
  let userMessage : AgentMessage := ⟨.user, [.text prompt]⟩
  let conv0 := (match session with | some s => s.messages | none => []) ++ [userMessage]
  let lr := runLoop impls script conv0
  let tail : List OutboundEvent :=
    match lr.2.2 with
    | .completed => [.sessionEvent sessionId lr.2.1, .doneEvent]
    | .failed m => [.errorEvent m]
    | .outOfScript => []
  ⟨.message userMessage :: lr.1 ++ tail, lr.2.1, sessionId, lr.2.2⟩

lemma runCalls_conv (impls : ToolImpls) :
    ∀ (calls : List ToolCall) (conv : List AgentMessage),
      (runCalls impls calls conv).2 = conv ++ calls.map (toolMessageOf impls) := by
  intro calls
  induction calls with
  | nil => intro conv; simp [runCalls]
  | cons call calls ih =>
    intro conv
    simp [runCalls, ih, toolMessageOf]

lemma runCalls_events (impls : ToolImpls) :
    ∀ (calls : List ToolCall) (conv : List AgentMessage),
      (runCalls impls calls conv).1 = calls.flatMap (toolStepEvents impls) := by
  intro calls
  induction calls with
  | nil => intro conv; simp [runCalls]
  | cons call calls ih =>
    intro conv
    simp [runCalls, ih, toolStepEvents, toolMessageOf]

/-- The conversation is append-only across the loop. -/
lemma runLoop_conv_extends (impls : ToolImpls) :
    ∀ (script : List TurnOutcome) (conv : List AgentMessage),
      ∃ t, (runLoop impls script conv).2.1 = conv ++ t := by
  intro script
  induction script with
  | nil => intro conv; exact ⟨[], by simp [runLoop]⟩
  | cons outcome rest ih =>
    intro conv
    cases outcome with
    | failure m => exact ⟨[], by simp [runLoop]⟩
    | success am calls =>
      by_cases hc : calls.isEmpty
      · exact ⟨[am], by simp [runLoop, hc]⟩
      · obtain ⟨t, ht⟩ := ih (runCalls impls calls (conv ++ [am])).2
        refine ⟨[am] ++ calls.map (toolMessageOf impls) ++ t, ?_⟩
        simp only [runLoop, hc, if_false]
        rw [ht, runCalls_conv]
        simp

/-! ### Helper lemmas about trimming and association lists -/

/-- A string whose trim is empty starts (when nonempty) with a character the
trim strips. -/
lemma jsTrim_nil_head {c : Char} {cs : List Char} (h : jsTrim (c :: cs) = []) :
    isJsWs c = true := by
  by_cases hc : isJsWs c
  · simpa using hc
  · exfalso
    unfold jsTrim at h
    rw [List.dropWhile_cons, if_neg (by simpa using hc)] at h
    have h2 : List.dropWhile isJsWs (c :: cs).reverse = [] := by
      have h3 := congrArg List.reverse h
      simpa using h3
    have h4 := List.dropWhile_eq_nil_iff.mp h2 c (by simp)
    exact hc (by simpa using h4)

lemma lookup_set_self {α : Type} (l : List (List Char × α)) (k : List Char) (v : α) :
    lookupAssoc (setAssoc l k v) k = some v := by
  induction l with
  | nil => simp [setAssoc, lookupAssoc]
  | cons kv rest ih =>
    obtain ⟨k', v'⟩ := kv
    by_cases hk : k' = k
    · simp [setAssoc, lookupAssoc, hk]
    · simp [setAssoc, lookupAssoc, hk, ih]

/-! ### Claim C1: fragmentation invariance of the incremental decode loop -/

/-- Claim C1: for every way of splitting a byte stream into chunks, the
incremental decode loop extracts exactly the frames of the unfragmented
stream, leaves the same unterminated tail buffered (which contains no
complete frame and is never decoded), and hence decodes the same sequence of
wire events and produces the same assembled turn result. -/
theorem c1_fragmentation_invariance (chunks : List (List Char)) :
    feedChunks [] chunks = extractFrames (joinAll chunks)
    ∧ splitFrame (feedChunks [] chunks).2 = none
    ∧ (feedChunks [] chunks).1.filterMap parseEvent
        = (extractFrames (joinAll chunks)).1.filterMap parseEvent
    ∧ runFrames (feedChunks [] chunks).1 = runFrames (extractFrames (joinAll chunks)).1 := by
  have h : feedChunks [] chunks = extractFrames (joinAll chunks) := by
    have := feedChunks_spec chunks [] rfl
    simpa using this
  refine ⟨h, ?_, by rw [h], by rw [h]⟩
  rw [h]
  exact splitFrame_extract (joinAll chunks)

/-! ### Claim C6: payload assembly from data lines -/

/-- Modelled from the claim's words: the payload text is the concatenation of
the frame's data lines with exactly the prefix removed and the rest of each
line kept unchanged. -/
def claimC6Payload (raw : List Char) : List Char :=
  joinAll ((splitLines raw).filterMap (dropLead dataMark))

lemma dropLead_data_of_blank {l : List Char} (h : jsTrim l = []) :
    dropLead dataMark l = none := by
  cases l with
  | nil => rfl
  | cons c cs =>
    have hc : isJsWs c = true := jsTrim_nil_head h
    have hcd : c ≠ 'd' := by
      intro hcd
      rw [hcd] at hc
      exact absurd hc (by decide)
    show dropLead ('d' :: ("ata:".toList)) (c :: cs) = none
    simp [dropLead, hcd]

lemma dropLead_data_of_event {l r : List Char}
    (h : dropLead eventMark l = some r) :
    dropLead dataMark l = none := by
  cases l with
  | nil => simp [dropLead, eventMark] at h
  | cons c cs =>
    have hc : c = 'e' := by
      by_cases hce : c = 'e'
      · exact hce
      · exfalso
        have hnone : dropLead ('e' :: ("vent:".toList)) (c :: cs) = none := by
          simp [dropLead, hce]
        rw [show eventMark = 'e' :: ("vent:".toList) from rfl] at h
        rw [hnone] at h
        exact Option.noConfusion h
    subst hc
    show dropLead ('d' :: ("ata:".toList)) ('e' :: cs) = none
    simp [dropLead]

lemma collectLines_unfold (l : List Char) (ls : List (List Char)) (ev : List Char)
    (ds : List (List Char)) :
    collectLines (l :: ls) ev ds
      = if jsTrim l = [] then collectLines ls ev ds
        else
          match dropLead eventMark l with
          | some rest => collectLines ls (jsTrim rest) ds
          | none =>
            match dropLead dataMark l with
            | some rest => collectLines ls ev (ds ++ [jsTrim rest])
            | none => collectLines ls ev ds := rfl

lemma collectLines_data : ∀ (ls : List (List Char)) (ev : List Char) (ds : List (List Char)),
    (collectLines ls ev ds).2
      = ds ++ ls.filterMap (fun l => (dropLead dataMark l).map jsTrim) := by
  intro ls
  induction ls with
  | nil => intro ev ds; simp [collectLines]
  | cons l ls ih =>
    intro ev ds
    rw [List.filterMap_cons]
    by_cases hb : jsTrim l = []
    · rw [collectLines_unfold, if_pos hb, ih, dropLead_data_of_blank hb]
      simp
    · rw [collectLines_unfold, if_neg hb]
      cases he : dropLead eventMark l with
      | some rest =>
        rw [ih, dropLead_data_of_event he]
        simp
      | none =>
        cases hd : dropLead dataMark l with
        | some rest =>
          rw [ih]
          simp
        | none =>
          rw [ih]
          simp

/-- Claim C6 counterexample: the code trims whitespace from each data line
after removing the prefix, so the payload of the frame "data: a" is "a",
not " a" as the claim's unchanged-remainder reading requires. -/
theorem c6_counterexample :
    dataPayloadOf ("data: a".toList) ≠ claimC6Payload ("data: a".toList) := by
  decide

/-- Claim C6 (amended): the payload text is the concatenation, in line order
and with no inserted separators, of the frame's data-prefixed lines with the
prefix removed and the remainder trimmed of surrounding whitespace. -/
theorem c6_amended_payload (raw : List Char) :
    dataPayloadOf raw
      = joinAll ((splitLines raw).filterMap
          (fun l => (dropLead dataMark l).map jsTrim)) := by
  unfold dataPayloadOf
  rw [collectLines_data]
  simp

/-! ### Claim C7: text deltas concatenate in arrival order -/

/-- Claim C7: starting from a state whose content at position ix is a started
text block with accumulated text s0, processing a sequence of text_delta
events targeting ix leaves the text block holding s0 followed by the
concatenation of the deltas in arrival order. -/
theorem c7_text_delta_concat (st : TurnState) (ix s0 : List Char) (ds : List (List Char))
    (h : lookupAssoc st.content ix = some (.text s0)) :
    ∃ stF ems,
      processEvents st (ds.map (mkTextDelta ix)) = .ok (stF, ems)
      ∧ lookupAssoc stF.content ix = some (.text (s0 ++ joinAll ds)) := by
  induction ds generalizing st s0 with
  | nil =>
    refine ⟨st, [], rfl, ?_⟩
    simpa [joinAll] using h
  | cons d ds ih =>
    have hstep := handleEvent_mkTextDelta st ix d
    rw [h] at hstep
    set st' : TurnState := { st with content := setAssoc st.content ix (.text (s0 ++ d)) }
    have hlook : lookupAssoc st'.content ix = some (.text (s0 ++ d)) :=
      lookup_set_self st.content ix (.text (s0 ++ d))
    obtain ⟨stF, ems, hrun, hfin⟩ := ih st' (s0 ++ d) hlook
    refine ⟨stF, (if d = [] then [] else [.assistantDelta d]) ++ ems, ?_, ?_⟩
    · show processEvents st (mkTextDelta ix d :: ds.map (mkTextDelta ix)) = _
      rw [processEvents, hstep]
      simp only [if_false, Bool.false_eq_true]
      rw [hrun]
    · rw [hfin]
      simp [joinAll]

/-! ### Claim C2: finalization of accumulated tool-input JSON -/

lemma jsonParse_nil : jsonParse [] = none := rfl

lemma parsedInputOf_some {s : List Char} {v : Json}
    (h : jsonParse (jsTrim s) = some v) : parsedInputOf s = v := by
  unfold parsedInputOf
  by_cases hz : jsTrim s = []
  · exfalso
    rw [hz, jsonParse_nil] at h
    exact Option.noConfusion h
  · simp only [if_neg hz]
    rw [h]

lemma parsedInputOf_empty_or_bad {s : List Char}
    (h : jsTrim s = [] ∨ jsonParse (jsTrim s) = none) :
    parsedInputOf s = Json.obj [] := by
  unfold parsedInputOf
  cases h with
  | inl hnil => simp only [if_pos hnil]
  | inr hbad =>
    by_cases hz : jsTrim s = []
    · simp only [if_pos hz]
    · simp only [if_neg hz]
      rw [hbad]

lemma c2_aux (ix id name : List Char) :
    ∀ (frags : List (List Char)) (st : TurnState) (buf : List Char),
      lookupAssoc st.pending ix = some ⟨id, name, buf⟩ →
      lookupAssoc st.content ix = some (.toolUse id name (Json.obj [])) →
      ∃ stF ems,
        processEvents st (frags.map (mkInputDelta ix) ++ [mkBlockStop ix]) = .ok (stF, ems)
        ∧ lookupAssoc stF.content ix
            = some (.toolUse id name (parsedInputOf (buf ++ joinAll frags)))
        ∧ ∃ call, stF.toolCalls = st.toolCalls ++ [call] := by
  intro frags
  induction frags with
  | nil =>
    intro st buf hpend hblk
    have hstop : handleBlockStop st (some (.obj [("index".toList, .num ix)]))
        = ({ st with
              pending := removeAssoc st.pending ix,
              content := setAssoc st.content ix (.toolUse id name (parsedInputOf buf)),
              toolCalls := st.toolCalls ++ [⟨id, name, parsedInputOf buf, ix⟩] }, []) := by
      rw [handleBlockStop_getIndex, hpend, hblk]
    refine ⟨{ st with
              pending := removeAssoc st.pending ix,
              content := setAssoc st.content ix (.toolUse id name (parsedInputOf buf)),
              toolCalls := st.toolCalls ++ [⟨id, name, parsedInputOf buf, ix⟩] }, [], ?_, ?_, ?_⟩
    · show processEvents st ([].map (mkInputDelta ix) ++ [mkBlockStop ix]) = _
      simp only [List.map_nil, List.nil_append]
      rw [processEvents, handleEvent_mkBlockStop, hstop]
      rfl
    · rw [show buf ++ joinAll [] = buf by simp [joinAll]]
      exact lookup_set_self st.content ix (.toolUse id name (parsedInputOf buf))
    · exact ⟨⟨id, name, parsedInputOf buf, ix⟩, rfl⟩
  | cons f frags ih =>
    intro st buf hpend hblk
    have hstep := handleEvent_mkInputDelta st ix f
    rw [hpend] at hstep
    simp only [] at hstep
    have hpend' : lookupAssoc
        (setAssoc st.pending ix ⟨id, name, buf ++ f⟩) ix = some ⟨id, name, buf ++ f⟩ :=
      lookup_set_self st.pending ix ⟨id, name, buf ++ f⟩
    obtain ⟨stF, ems, hrun, hfin, hcalls⟩ :=
      ih { st with pending := setAssoc st.pending ix ⟨id, name, buf ++ f⟩ } (buf ++ f)
        hpend' hblk
    refine ⟨stF, [] ++ ems, ?_, ?_, hcalls⟩
    · show processEvents st
        (mkInputDelta ix f :: (frags.map (mkInputDelta ix) ++ [mkBlockStop ix])) = _
      rw [processEvents, hstep]
      simp only [if_false, Bool.false_eq_true]
      rw [hrun]
    · rw [hfin]
      simp [joinAll]

/-- Claim C2 counterexample: the single fragment consisting of U+000B
followed by "[1]".  Its concatenation is not valid JSON (U+000B is not JSON
whitespace), so the claim requires the finalized input to be the empty
object — but content_block_stop runs JSON.parse(buffer.trim()), and
String.prototype.trim strips U+000B, so the code finalizes the input to the
array [1]. -/
theorem c2_counterexample :
    jsonParse (joinAll ["\x0b[1]".toList]) = none
    ∧ ∃ stF ems,
        processEvents
            (⟨[(("0".toList), .toolUse ("i".toList) ("t".toList) (Json.obj []))],
              [], [(("0".toList), ⟨"i".toList, "t".toList, []⟩)], 0⟩ : TurnState)
            ((["\x0b[1]".toList].map (mkInputDelta ("0".toList))) ++ [mkBlockStop ("0".toList)])
          = .ok (stF, ems)
        ∧ lookupAssoc stF.content ("0".toList)
            = some (.toolUse ("i".toList) ("t".toList) (Json.arr [Json.num ['1']]))
        ∧ Json.arr [Json.num ['1']] ≠ Json.obj [] := by
  exact ⟨rfl, _, _, rfl, rfl, fun h => Json.noConfusion h⟩

/-- Claim C2 (amended): for a tool-use position whose pending buffer starts
empty, accumulating a sequence of input_json_delta fragments and closing the
block finalizes the ToolUse input to the parse of the whitespace-trimmed
(String.prototype.trim) concatenation of the fragments when that parses as
JSON, and to the empty object when the trimmed concatenation is empty or is
not valid JSON; the handling returns normally (no exception) and appends one
finalized tool call. -/
theorem c2_amended_tool_input_finalization (st : TurnState) (ix id name : List Char)
    (frags : List (List Char))
    (hpend : lookupAssoc st.pending ix = some ⟨id, name, []⟩)
    (hblk : lookupAssoc st.content ix = some (.toolUse id name (Json.obj []))) :
    ∃ stF ems,
      processEvents st (frags.map (mkInputDelta ix) ++ [mkBlockStop ix]) = .ok (stF, ems)
      ∧ (∀ v, jsonParse (jsTrim (joinAll frags)) = some v →
           lookupAssoc stF.content ix = some (.toolUse id name v))
      ∧ ((jsTrim (joinAll frags) = [] ∨ jsonParse (jsTrim (joinAll frags)) = none) →
           lookupAssoc stF.content ix = some (.toolUse id name (Json.obj [])))
      ∧ ∃ call, stF.toolCalls = st.toolCalls ++ [call] := by
  obtain ⟨stF, ems, hrun, hfin, hcalls⟩ := c2_aux ix id name frags st [] hpend hblk
  simp only [List.nil_append] at hfin
  refine ⟨stF, ems, hrun, ?_, ?_, hcalls⟩
  · intro v hv
    rw [hfin, parsedInputOf_some hv]
  · intro hbad
    rw [hfin, parsedInputOf_empty_or_bad hbad]

/-! ### Claim C9: orphan delta and stop events are ignored -/

lemma handleEvent_delta_json (st : TurnState) (j : Json) :
    handleEvent st ⟨"content_block_delta".toList, some (.json j)⟩
      = .ok ((handleBlockDelta st (some j)).1, (handleBlockDelta st (some j)).2, false) := rfl

lemma handleEvent_stop_json (st : TurnState) (j : Json) :
    handleEvent st ⟨"content_block_stop".toList, some (.json j)⟩
      = .ok ((handleBlockStop st (some j)).1, (handleBlockStop st (some j)).2, false) := rfl

lemma handleBlockDelta_orphan (st : TurnState) (ix : List Char) (j : Json)
    (hix : getIndex (some j) = some ix)
    (hct : lookupAssoc st.content ix = none)
    (hpd : lookupAssoc st.pending ix = none) :
    (handleBlockDelta st (some j)).1 = st := by
  unfold handleBlockDelta
  simp only [hix]
  cases hdelta : (some j).bind (fun j' => getField j' ("delta".toList)) with
  | none => rfl
  | some delta =>
    by_cases hf : jsFalsy delta
    · simp only [hf, if_true]
    · simp only [hf, Bool.false_eq_true, if_false]
      cases hty : getField delta ("type".toList) with
      | none => rfl
      | some tyj =>
        cases tyj with
        | str ty =>
          by_cases h1 : ty = "text_delta".toList
          · simp only [h1, hct]
            rfl
          · simp only [if_neg h1]
            by_cases h2 : ty = "input_json_delta".toList
            · simp only [h2, hpd]
              rfl
            · simp only [if_neg h2]
        | null => rfl
        | bool b => rfl
        | num lex => rfl
        | arr items => rfl
        | obj fields => rfl

lemma handleBlockStop_orphan (st : TurnState) (ix : List Char) (j : Json)
    (hix : getIndex (some j) = some ix)
    (hpd : lookupAssoc st.pending ix = none) :
    (handleBlockStop st (some j)).1 = st := by
  unfold handleBlockStop
  simp only [hix, hpd]

/-- Claim C9: a content_block_delta or content_block_stop wire event whose
numeric position index has no corresponding content_block_start (no content
block and no pending tool input at that position) is handled without error,
without ending the turn, and leaves the whole turn state unchanged. -/
theorem c9_orphan_events_ignored (st : TurnState) (ix : List Char) (j : Json)
    (ev : List Char)
    (hev : ev = "content_block_delta".toList ∨ ev = "content_block_stop".toList)
    (hix : getIndex (some j) = some ix)
    (hct : lookupAssoc st.content ix = none)
    (hpd : lookupAssoc st.pending ix = none) :
    ∃ ems, handleEvent st ⟨ev, some (.json j)⟩ = .ok (st, ems, false) := by
  cases hev with
  | inl h =>
    subst h
    refine ⟨(handleBlockDelta st (some j)).2, ?_⟩
    rw [handleEvent_delta_json, handleBlockDelta_orphan st ix j hix hct hpd]
  | inr h =>
    subst h
    refine ⟨(handleBlockStop st (some j)).2, ?_⟩
    rw [handleEvent_stop_json, handleBlockStop_orphan st ix j hix hpd]

/-! ### Claim C10: ghost text deltas are forwarded but not stored -/

/-- Claim C10: a nonempty text_delta at a position with no started text block
is still forwarded to the caller as an assistant-text delta while the
in-progress assistant message is left unchanged; in particular a concrete
one-event turn emits the delta text while the final message stays empty, so
the emitted delta stream can contain text absent from the final message. -/
theorem c10_ghost_text_delta :
    (∀ (st : TurnState) (ix t : List Char),
       (∀ s, lookupAssoc st.content ix ≠ some (.text s)) →
       t ≠ [] →
       handleEvent st (mkTextDelta ix t) = .ok (st, [.assistantDelta t], false))
    ∧ processEvents initState [mkTextDelta ("0".toList) ("ghost".toList)]
        = .ok (initState, [.assistantDelta ("ghost".toList)]) := by
  constructor
  · intro st ix t htext ht
    rw [handleEvent_mkTextDelta]
    rw [if_neg ht]
    cases hlk : lookupAssoc st.content ix with
    | none => rfl
    | some b =>
      cases b with
      | text s => exact absurd hlk (htext s)
      | toolUse id name input => rfl
      | toolResult tid c => rfl
  · rfl

/-! ### Claim C3: one tool-invocation step per call, in order, before the next turn -/

/-- Claim C3: a turn returning a nonempty list of tool calls makes the loop
emit, after the assistant message, exactly one tool-invocation step per call
(tool-call, tool-result, tool message) in the order the calls were finalized,
appending exactly one tool message per call to the conversation, and only
then continue with the remaining turns on the extended conversation. -/
theorem c3_sequential_tool_steps (impls : ToolImpls) (am : AgentMessage)
    (calls : List ToolCall) (rest : List TurnOutcome) (conv : List AgentMessage)
    (h : calls ≠ []) :
    runLoop impls (.success am calls :: rest) conv
      = (.message am :: (calls.flatMap (toolStepEvents impls)
           ++ (runLoop impls rest ((conv ++ [am]) ++ calls.map (toolMessageOf impls))).1),
         (runLoop impls rest ((conv ++ [am]) ++ calls.map (toolMessageOf impls))).2.1,
         (runLoop impls rest ((conv ++ [am]) ++ calls.map (toolMessageOf impls))).2.2)
    ∧ (calls.map (toolMessageOf impls)).length = calls.length := by
  have hne : calls.isEmpty = false := by
    cases calls with
    | nil => exact absurd rfl h
    | cons c cs => rfl
  constructor
  · simp only [runLoop, hne, Bool.false_eq_true, if_false]
    rw [runCalls_events, runCalls_conv]
    rfl
  · exact List.length_map _ _

/-! ### Claim C4: exactly one terminal event per orchestrator invocation -/

def isTerminalEv (e : OutboundEvent) : Bool :=
  isDoneEv e || isErrorEv e || isSessionEv e

lemma toolStepEvents_no_terminal (impls : ToolImpls) (call : ToolCall) :
    ∀ e ∈ toolStepEvents impls call, isTerminalEv e = false := by
  intro e he
  simp [toolStepEvents] at he
  rcases he with rfl | rfl | rfl <;> rfl

lemma runLoop_no_terminal (impls : ToolImpls) :
    ∀ (script : List TurnOutcome) (conv : List AgentMessage),
      ∀ e ∈ (runLoop impls script conv).1, isTerminalEv e = false := by
  intro script
  induction script with
  | nil => intro conv e he; simp [runLoop] at he
  | cons outcome rest ih =>
    intro conv e he
    cases outcome with
    | failure m => simp [runLoop] at he
    | success am calls =>
      by_cases hc : calls.isEmpty
      · simp [runLoop, hc] at he
        subst he
        rfl
      · simp only [runLoop, hc, Bool.false_eq_true, if_false] at he
        rw [runCalls_events] at he
        simp only [List.mem_cons, List.mem_append] at he
        rcases he with (rfl | hin) | hin
        · rfl
        · rw [List.mem_flatMap] at hin
          obtain ⟨call, _, hcall⟩ := hin
          exact toolStepEvents_no_terminal impls call e hcall
        · exact ih _ e hin

/-- The conversation at loop entry: the input session's messages (empty when
no session is supplied) followed by the user message. -/
def initialConv (session : Option AgentSession) (prompt : List Char) : List AgentMessage :=
  (match session with | some s => s.messages | none => []) ++ [⟨.user, [.text prompt]⟩]

/-- The outbound events of one exchange are the non-terminal body followed by
the exit-determined tail. -/
lemma exchange_events_shape (impls : ToolImpls) (prompt : List Char)
    (session : Option AgentSession) (freshId : List Char) (script : List TurnOutcome) :
    ∃ pre,
      (createAgentResponse impls prompt session freshId script).events
        = pre ++ (match (createAgentResponse impls prompt session freshId script).exit with
            | .completed =>
                [.sessionEvent (createAgentResponse impls prompt session freshId script).sessionId
                   (createAgentResponse impls prompt session freshId script).conv,
                 .doneEvent]
            | .failed m => [.errorEvent m]
            | .outOfScript => [])
      ∧ ∀ e ∈ pre, isTerminalEv e = false := by
  refine ⟨.message ⟨.user, [.text prompt]⟩
      :: (runLoop impls script (initialConv session prompt)).1, ?_, ?_⟩
  · show (createAgentResponse impls prompt session freshId script).events = _
    rfl
  · intro e he
    rcases List.mem_cons.mp he with rfl | hin
    · rfl
    · exact runLoop_no_terminal impls script _ e hin

/-- Claim C4: an orchestrator invocation whose turn script settles it is
terminated by exactly one terminal configuration: on a turn with zero tool
calls, one session-snapshot event immediately followed by one done event and
no other terminal event; on a failed turn, one error event and no
session-snapshot, done, or other terminal event. -/
theorem c4_single_terminal_event (impls : ToolImpls) (prompt : List Char)
    (session : Option AgentSession) (freshId : List Char) (script : List TurnOutcome)
    (r : ExchangeResult)
    (hr : r = createAgentResponse impls prompt session freshId script)
    (hterm : r.exit ≠ .outOfScript) :
    (r.exit = .completed →
       ∃ pre, r.events = pre ++ [.sessionEvent r.sessionId r.conv, .doneEvent]
         ∧ ∀ e ∈ pre, isTerminalEv e = false)
    ∧ (∀ m, r.exit = .failed m →
       ∃ pre, r.events = pre ++ [.errorEvent m]
         ∧ ∀ e ∈ pre, isTerminalEv e = false) := by
  subst hr
  obtain ⟨pre, hsh, hfree⟩ := exchange_events_shape impls prompt session freshId script
  constructor
  · intro hdone
    rw [hdone] at hsh
    exact ⟨pre, hsh, hfree⟩
  · intro m hfail
    rw [hfail] at hsh
    exact ⟨pre, hsh, hfree⟩

/-! ### Claim C5: session snapshot round trip -/

/-- Claim C5: when exchange 1 completes, its session snapshot (the session
event carrying its id and final conversation) is emitted; feeding that
snapshot as the input session of exchange 2 yields a final conversation that
extends exchange 1's final conversation as a prefix, and exchange 2 carries
the same session id. -/
theorem c5_session_round_trip (impls1 impls2 : ToolImpls) (p1 p2 f1 f2 : List Char)
    (s0 : Option AgentSession) (t1 t2 : List TurnOutcome) (r1 r2 : ExchangeResult)
    (hr1 : r1 = createAgentResponse impls1 p1 s0 f1 t1)
    (hdone : r1.exit = .completed)
    (hr2 : r2 = createAgentResponse impls2 p2 (some ⟨r1.sessionId, r1.conv⟩) f2 t2) :
    OutboundEvent.sessionEvent r1.sessionId r1.conv ∈ r1.events
    ∧ (∃ tail, r2.conv = r1.conv ++ tail)
    ∧ r2.sessionId = r1.sessionId := by
  refine ⟨?_, ?_, ?_⟩
  · subst hr1
    obtain ⟨pre, hsh, _⟩ := exchange_events_shape impls1 p1 s0 f1 t1
    rw [hdone] at hsh
    rw [hsh]
    simp
  · subst hr2
    obtain ⟨t, ht⟩ :=
      runLoop_conv_extends impls2 t2 (r1.conv ++ [⟨.user, [.text p2]⟩])
    refine ⟨[⟨.user, [.text p2]⟩] ++ t, ?_⟩
    show (runLoop impls2 t2 (r1.conv ++ [⟨.user, [.text p2]⟩])).2.1 = _
    rw [ht, List.append_assoc]
  · subst hr2
    rfl

/-! ### Claim C8: unknown tool names yield a failure result, not a fatal error -/

/-- Claim C8: a tool call whose name is not in the registry produces the
failure result naming the unknown tool (not a thrown error), and the
orchestrator loop appends the corresponding tool message and proceeds to the
next model turn, completing the exchange instead of failing it. -/
theorem c8_unknown_tool (impls : ToolImpls) (name : List Char) (input : Json)
    (h : name ∉ toolNames) :
    runTool impls name input
      = .failure ("Unknown tool: ".toList ++ name)
          [⟨"Lookup tool".toList,
            "The orchestrator asked for a tool that is not registered in this host.".toList⟩]
    ∧ ∀ (am am2 : AgentMessage) (id ix : List Char) (conv : List AgentMessage),
        (runLoop impls [.success am [⟨id, name, input, ix⟩], .success am2 []] conv).2.2
            = .completed
        ∧ (runLoop impls [.success am [⟨id, name, input, ix⟩], .success am2 []] conv).2.1
            = conv ++ [am, toolMessageOf impls ⟨id, name, input, ix⟩, am2] := by
  have hns : name ≠ ("run_javascript".toList) ∧ name ≠ ("list_capabilities".toList)
      ∧ name ≠ ("explain_guardrails".toList) ∧ name ≠ ("kb_lookup".toList)
      ∧ name ≠ ("todo_manager".toList) := by
    simp [toolNames] at h
    exact ⟨h.1, h.2.1, h.2.2.1, h.2.2.2.1, h.2.2.2.2⟩
  obtain ⟨h1, h2, h3, h4, h5⟩ := hns
  have hrt : runTool impls name input
      = .failure ("Unknown tool: ".toList ++ name)
          [⟨"Lookup tool".toList,
            "The orchestrator asked for a tool that is not registered in this host.".toList⟩] := by
    unfold runTool
    rw [if_neg h1, if_neg h2, if_neg h3, if_neg h4, if_neg h5]
  refine ⟨hrt, ?_⟩
  intro am am2 id ix conv
  constructor
  · simp [runLoop, runCalls]
  · simp [runLoop, runCalls, toolMessageOf]

/-! ### Concrete inputs used by the witnesses -/

/-- A trivial tool capability set: every tool returns an empty success. -/
def trivImpls : ToolImpls :=
  ⟨fun _ => .success .null [] [], .success .null [] [], .success .null [] [],
   fun _ => .success .null [] [], fun _ => .success .null [] []⟩

def wAm : AgentMessage := ⟨.assistant, []⟩

def wCall : ToolCall := ⟨"i".toList, "n".toList, .obj [], "0".toList⟩

def wToolState : TurnState :=
  ⟨[(("0".toList), .toolUse ("i".toList) ("t".toList) (Json.obj []))],
   [], [(("0".toList), ⟨"i".toList, "t".toList, []⟩)], 0⟩

def wEx1 : ExchangeResult :=
  createAgentResponse trivImpls ("p".toList) none ("s".toList) [.success wAm []]

def wEx2 : ExchangeResult :=
  createAgentResponse trivImpls ("q".toList) (some ⟨wEx1.sessionId, wEx1.conv⟩)
    ("f".toList) []

/-! ### Witnesses -/

theorem c2_amended_tool_input_finalization_witness :
    (lookupAssoc wToolState.pending ("0".toList) = some ⟨"i".toList, "t".toList, []⟩
     ∧ lookupAssoc wToolState.content ("0".toList)
         = some (.toolUse ("i".toList) ("t".toList) (Json.obj [])))
    ∧ ∃ stF ems,
        processEvents wToolState
            ((["\x7b\x7d".toList].map (mkInputDelta ("0".toList))) ++ [mkBlockStop ("0".toList)])
          = .ok (stF, ems)
        ∧ (∀ v, jsonParse (jsTrim (joinAll ["\x7b\x7d".toList])) = some v →
             lookupAssoc stF.content ("0".toList)
               = some (.toolUse ("i".toList) ("t".toList) v))
        ∧ ((jsTrim (joinAll ["\x7b\x7d".toList]) = []
              ∨ jsonParse (jsTrim (joinAll ["\x7b\x7d".toList])) = none) →
             lookupAssoc stF.content ("0".toList)
               = some (.toolUse ("i".toList) ("t".toList) (Json.obj [])))
        ∧ ∃ call, stF.toolCalls = wToolState.toolCalls ++ [call] :=
  ⟨⟨rfl, rfl⟩,
   c2_amended_tool_input_finalization wToolState ("0".toList) ("i".toList) ("t".toList)
     ["\x7b\x7d".toList] rfl rfl⟩

theorem c3_sequential_tool_steps_witness :
    (([wCall] : List ToolCall) ≠ [])
    ∧ (runLoop trivImpls [.success wAm [wCall]] []
        = (.message wAm :: ([wCall].flatMap (toolStepEvents trivImpls)
             ++ (runLoop trivImpls [] (([] ++ [wAm]) ++ [wCall].map (toolMessageOf trivImpls))).1),
           (runLoop trivImpls [] (([] ++ [wAm]) ++ [wCall].map (toolMessageOf trivImpls))).2.1,
           (runLoop trivImpls [] (([] ++ [wAm]) ++ [wCall].map (toolMessageOf trivImpls))).2.2)
       ∧ ([wCall].map (toolMessageOf trivImpls)).length = [wCall].length) :=
  ⟨List.cons_ne_nil _ _,
   c3_sequential_tool_steps trivImpls wAm [wCall] [] [] (List.cons_ne_nil _ _)⟩

theorem c4_single_terminal_event_witness :
    (wEx1.exit ≠ .outOfScript)
    ∧ ((wEx1.exit = .completed →
         ∃ pre, wEx1.events = pre ++ [.sessionEvent wEx1.sessionId wEx1.conv, .doneEvent]
           ∧ ∀ e ∈ pre, isTerminalEv e = false)
       ∧ (∀ m, wEx1.exit = .failed m →
         ∃ pre, wEx1.events = pre ++ [.errorEvent m]
           ∧ ∀ e ∈ pre, isTerminalEv e = false)) :=
  ⟨by decide,
   c4_single_terminal_event trivImpls ("p".toList) none ("s".toList) [.success wAm []]
     wEx1 rfl (by decide)⟩

theorem c5_session_round_trip_witness :
    (wEx1.exit = .completed)
    ∧ (OutboundEvent.sessionEvent wEx1.sessionId wEx1.conv ∈ wEx1.events
       ∧ (∃ tail, wEx2.conv = wEx1.conv ++ tail)
       ∧ wEx2.sessionId = wEx1.sessionId) :=
  ⟨rfl,
   c5_session_round_trip trivImpls trivImpls ("p".toList) ("q".toList) ("s".toList)
     ("f".toList) none [.success wAm []] [] wEx1 wEx2 rfl rfl rfl⟩

theorem c7_text_delta_concat_witness :
    (lookupAssoc (TurnState.mk [(("0".toList), MessageContent.text [])] [] [] 0).content
        ("0".toList) = some (.text []))
    ∧ ∃ stF ems,
        processEvents (TurnState.mk [(("0".toList), MessageContent.text [])] [] [] 0)
            (["ab".toList].map (mkTextDelta ("0".toList))) = .ok (stF, ems)
        ∧ lookupAssoc stF.content ("0".toList)
            = some (.text ([] ++ joinAll ["ab".toList])) :=
  ⟨rfl,
   c7_text_delta_concat (TurnState.mk [(("0".toList), MessageContent.text [])] [] [] 0)
     ("0".toList) [] ["ab".toList] rfl⟩

theorem c8_unknown_tool_witness :
    (("delete_everything".toList) ∉ toolNames)
    ∧ runTool trivImpls ("delete_everything".toList) (.obj [])
        = .failure ("Unknown tool: ".toList ++ ("delete_everything".toList))
            [⟨"Lookup tool".toList,
              "The orchestrator asked for a tool that is not registered in this host.".toList⟩]
    ∧ (runLoop trivImpls
        [.success wAm [⟨"i".toList, "delete_everything".toList, .obj [], "0".toList⟩],
         .success wAm []] []).2.2 = .completed :=
  ⟨by decide,
   (c8_unknown_tool trivImpls ("delete_everything".toList) (.obj []) (by decide)).1,
   ((c8_unknown_tool trivImpls ("delete_everything".toList) (.obj []) (by decide)).2
      wAm wAm ("i".toList) ("0".toList) []).1⟩

theorem c9_orphan_events_ignored_witness :
    (("content_block_stop".toList = "content_block_delta".toList
        ∨ "content_block_stop".toList = "content_block_stop".toList)
     ∧ getIndex (some (.obj [("index".toList, .num ("0".toList))])) = some ("0".toList)
     ∧ lookupAssoc initState.content ("0".toList) = none
     ∧ lookupAssoc initState.pending ("0".toList) = none)
    ∧ ∃ ems, handleEvent initState
        ⟨"content_block_stop".toList,
         some (.json (.obj [("index".toList, .num ("0".toList))]))⟩
        = .ok (initState, ems, false) :=
  ⟨⟨Or.inr rfl, rfl, rfl, rfl⟩,
   c9_orphan_events_ignored initState ("0".toList)
     (.obj [("index".toList, .num ("0".toList))]) ("content_block_stop".toList)
     (Or.inr rfl) rfl rfl rfl⟩

theorem c10_ghost_text_delta_witness :
    ((∀ s, lookupAssoc initState.content ("7".toList) ≠ some (.text s))
     ∧ ("x".toList ≠ []))
    ∧ handleEvent initState (mkTextDelta ("7".toList) ("x".toList))
        = .ok (initState, [.assistantDelta ("x".toList)], false) :=
  ⟨⟨fun s h => Option.noConfusion h, fun h => List.noConfusion h⟩,
   c10_ghost_text_delta.1 initState ("7".toList) ("x".toList)
     (fun s h => Option.noConfusion h) (fun h => List.noConfusion h)⟩

end AgentCore
